import Mathlib

/-!
Verification development for the Echo Nest Remix `audio.py` module.

The Python source is shallowly embedded:
* sample matrices (`numpy.int16` arrays of shape rows × channels) become
  `List SampleRow` with `SampleRow = List ℤ`; the int16 overflow wrap is not
  exercised by any statement below (all sample values stay far inside the
  int16 range), so samples are kept as unbounded integers;
* Python floats (time offsets in seconds, sample rates, mix ratios) become
  exact rationals `ℚ`; `int(x)` (truncation toward zero) becomes `pyInt`;
* fallible operations (numpy broadcast errors, `IndexError`, missing data)
  return `Option`/`Except`;
* the circular object references (`AudioQuantum.container`,
  `AudioQuantumList.container`) are modelled as explicit numeric identifiers,
  the arena-handle representation the code's pickling support itself suggests.
-/

/-- One frame of audio: one integer sample per channel
(a row of the `numpy` matrix held by `AudioData.data`). -/
abbrev SampleRow := List ℤ

/-- Python `int(q)` on a float value: truncation toward zero (`Int.tdiv` is
T-division, the rounding convention of Python's `int()` on a float). -/
def pyInt (q : ℚ) : ℤ := q.num.tdiv q.den

/-- Resolution of one slice bound, Python semantics for step 1:
a negative bound counts from the end, and bounds are clamped to `[0, n]`. -/
def clampIdx (n : ℕ) (i : ℤ) : ℕ :=
  if i < 0 then ((n : ℤ) + i).toNat else min i.toNat n

/-- Python / numpy basic slice `d[a:b]` (step 1) on a list of rows. -/
def pySlice (d : List SampleRow) (a b : ℤ) : List SampleRow :=
  (d.take (clampIdx d.length b)).drop (clampIdx d.length a)

/-- Python / numpy single-row indexing `d[i]`, including the negative-index
wrap-around; `none` models the `IndexError` for an out-of-range index. -/
def pyGetRow (d : List SampleRow) (i : ℤ) : Option SampleRow :=
  if i < 0 then
    if 0 ≤ (d.length : ℤ) + i then d.get? ((d.length : ℤ) + i).toNat else none
  else d.get? i.toNat

/-- numpy slice assignment `dst[i : i + src.length] = src`;
`none` models the broadcast error when the assigned range does not fit. -/
def setSlice (dst : List SampleRow) (i : ℕ) (src : List SampleRow) :
    Option (List SampleRow) :=
  if i + src.length ≤ dst.length then
    some (dst.take i ++ src ++ dst.drop (i + src.length))
  else none

/-- `numpy.zeros((n, ch))`: `n` rows of `ch` zero samples. -/
def zerosRows (n ch : ℕ) : List SampleRow :=
  List.replicate n (List.replicate ch 0)

/-- `numpy.zeros(nd.shape)` for a matrix already given as rows. -/
def zerosLike (nd : List SampleRow) : List SampleRow :=
  nd.map (fun r => r.map (fun _ => 0))

/-- `AudioData.__init__` storage fill when an `ndarray` is supplied and
`shape` is not: `data = zeros(ndarray.shape); data[0:len(ndarray)] = ndarray`. -/
def initData (nd : List SampleRow) : List SampleRow :=
  (setSlice (zerosLike nd) 0 nd).getD (zerosLike nd)

/-- The Sample Buffer: `AudioData`.  `data = none` models the Python state
`self.data is None` (constructed with neither an ndarray nor a shape);
`endindex` is the write cursor. -/
structure AudioDataE where
  data : Option (List SampleRow)
  sampleRate : Option ℚ
  numChannels : Option ℕ
  endindex : ℕ
deriving DecidableEq

/-- `AudioData(None, nd, sampleRate=rate, numChannels=nch)`:
fresh zero storage shaped like `nd`, then `nd` written at offset 0,
with the write cursor at `len(nd)`. -/
def mkFromNdarray (nd : List SampleRow) (rate : Option ℚ) (nch : Option ℕ) :
    AudioDataE :=
  { data := some (initData nd), sampleRate := rate, numChannels := nch,
    endindex := nd.length }

/-- `AudioData(shape=(n, ch), sampleRate=rate, numChannels=ch)`:
zero-filled storage with the write cursor at 0 (the accumulator built by
`getpieces`). -/
def mkFromShape (n ch : ℕ) (rate : ℚ) : AudioDataE :=
  { data := some (zerosRows n ch), sampleRate := some rate,
    numChannels := some ch, endindex := 0 }

/-- `AudioData.getslice` for a float-bounded slice `slice(start, stop)` with
both bounds in seconds: the bounds are scaled by the sample rate and
truncated with `int`, and a new buffer copies that row range at the same
sample rate (`AudioData.__init__` leaves `numChannels = None` here).
`none` models the crash when `data` or `sampleRate` is `None`. -/
def getsliceE (a : AudioDataE) (start stop : ℚ) : Option AudioDataE :=
  match a.data, a.sampleRate with
  | some d, some rate =>
      some (mkFromNdarray (pySlice d (pyInt (start * rate)) (pyInt (stop * rate)))
        a.sampleRate none)
  | _, _ => none

/-- The index shapes `AudioData.__getitem__` dispatches on: an integer sample
number, a float time offset, an `AudioQuantum`-like value (start + duration,
both in seconds), or a pair of interval-like values used as a range. -/
inductive PyIndex where
  | intIdx (n : ℤ)
  | floatIdx (t : ℚ)
  | quantum (start duration : ℚ)
  | quantumPair (s1 d1 s2 d2 : ℚ)
deriving DecidableEq

/-- What `__getitem__` returns: a single frame, or a new buffer for a slice. -/
inductive GetResult where
  | row (r : SampleRow)
  | buf (b : AudioDataE)
deriving DecidableEq

/-- `AudioData.__getitem__`: a float is converted to `int(t * sampleRate)` and
fetched as a single frame; an interval-like index becomes
`slice(start, start + duration)`; a pair of interval-likes becomes
`slice(first.start, second.start + second.duration)`; slices go through
`getslice`, which scales the float bounds by the sample rate. -/
def getitemE (a : AudioDataE) (idx : PyIndex) : Option GetResult :=
  match idx with
  | PyIndex.intIdx n =>
      match a.data with
      | some d => (pyGetRow d n).map GetResult.row
      | none => none
  | PyIndex.floatIdx t =>
      match a.data, a.sampleRate with
      | some d, some rate => (pyGetRow d (pyInt (t * rate))).map GetResult.row
      | _, _ => none
  | PyIndex.quantum s dur => (getsliceE a s (s + dur)).map GetResult.buf
  | PyIndex.quantumPair s1 _ s2 d2 => (getsliceE a s1 (s2 + d2)).map GetResult.buf

/-- `AudioData.append`: `self.data[endindex : endindex + len(other)] = other.data`
then the cursor advances by `len(other)`.  `none` models the numpy error when
either buffer has no storage or the write does not fit. -/
def appendE (a b : AudioDataE) : Option AudioDataE :=
  match a.data, b.data with
  | some da, some db =>
      match setSlice da a.endindex db with
      | some newd => some { a with data := some newd, endindex := a.endindex + db.length }
      | none => none
  | _, _ => none

/-- `AudioData.__add__`: row-wise concatenation of the two full storage
arrays (`numpy.concatenate`); an operand whose `data` is `None` is skipped
and the other operand's storage is copied.  Both operands dataless crashes
(`None.copy()`), modelled by `none`. -/
def addAD (a b : AudioDataE) : Option AudioDataE :=
  match a.data, b.data with
  | none, some db => some (mkFromNdarray db none none)
  | some da, none => some (mkFromNdarray da none none)
  | some da, some db => some (mkFromNdarray (da ++ db) none none)
  | none, none => none

/-- `AudioData.__len__`: `len(self.data)` when storage exists, else 0. -/
def lenAD (a : AudioDataE) : ℕ :=
  match a.data with
  | some d => d.length
  | none => 0

/-- Channel count read off the matrix shape (`data.shape[1]`); the embedding
keeps sample matrices as lists of rows, so the row width of the first row
plays the role of the second shape component. -/
def rowWidth (d : List SampleRow) : ℕ :=
  match d with
  | [] => 0
  | r :: _ => r.length

/-- The `for s in segs: newAD.append(audioData[s])` loop of `getpieces`;
each element of `segs` is the (start, duration) pair of an interval-like
value, indexed into `audioData` through `__getitem__`. -/
def appendSegs (audioData : AudioDataE) : List (ℚ × ℚ) → AudioDataE → Option AudioDataE
  | [], acc => some acc
  | s :: rest, acc =>
      match getitemE audioData (PyIndex.quantum s.1 s.2) with
      | some (GetResult.buf piece) =>
          match appendE acc piece with
          | some acc2 => appendSegs audioData rest acc2
          | none => none
      | _ => none

/-- `getpieces(audioData, segs)`: sums `int(duration * sampleRate)` over the
intervals, adds the 100000-sample safety margin, allocates a zero-filled
accumulator of that length with the source's channel count and sample rate,
then appends every sliced interval in order.  The embedding fixes the
two-dimensional sample layout, so the `len(shape) > 1` branch of the source
is the one taken; `none` models the crashes (missing data / sample rate,
a negative allocation size, or an append that does not fit). -/
def getpieces (audioData : AudioDataE) (segs : List (ℚ × ℚ)) : Option AudioDataE :=
  match audioData.data, audioData.sampleRate with
  | some d, some rate =>
      let dur : ℤ := segs.foldl (fun acc s => acc + pyInt (s.2 * rate)) 0
      let dur2 : ℤ := dur + 100000
      if dur2 < 0 then none
      else
        appendSegs audioData segs (mkFromShape dur2.toNat (rowWidth d) rate)
  | _, _ => none

/-- Elementwise in-place scaling `arr *= w` on an int16 row: each sample is
multiplied by the float weight and cast back with truncation toward zero. -/
def scaleRowTrunc (w : ℚ) (r : SampleRow) : SampleRow :=
  r.map (fun x => pyInt ((x : ℚ) * w))

/-- Elementwise `cur += src * w` on int16 rows: the sum is computed in float
and cast back with truncation toward zero. -/
def rowAddScaled (w : ℚ) (cur src : SampleRow) : SampleRow :=
  List.zipWith (fun x y => pyInt ((x : ℚ) + (y : ℚ) * w)) cur src

/-- `dst[:k] += src * w` for int16 rows: the added array must match the
(clamped) slice length row for row, else numpy raises a broadcast error
(`none`); rows past the slice are untouched. -/
def addScaledFront (dst : List SampleRow) (k : ℕ) (src : List SampleRow)
    (w : ℚ) : Option (List SampleRow) :=
  let t := min k dst.length
  if src.length = t then
    some (List.zipWith (rowAddScaled w) (dst.take t) src ++ dst.drop t)
  else none

/-- `mix(dataA, dataB, mix)`: when `dataA.endindex > dataB.endindex` the
result starts as `AudioData(ndarray=dataA.data)` (a copy of A's full storage,
with no sample rate or channel count), is scaled in place by the ratio, and
B's storage scaled by the complementary weight is added into the prefix of
length `dataB.endindex`; otherwise the roles and the weights swap.  The
function never inspects the sample rates or channel counts. -/
def mixE (a b : AudioDataE) (r : ℚ) : Option AudioDataE :=
  match a.data, b.data with
  | some da, some db =>
      if b.endindex < a.endindex then
        let nd := mkFromNdarray da none none
        match addScaledFront ((initData da).map (scaleRowTrunc r)) b.endindex db (1 - r) with
        | some dfinal => some { nd with data := some dfinal }
        | none => none
      else
        let nd := mkFromNdarray db none none
        match addScaledFront ((initData db).map (scaleRowTrunc (1 - r))) a.endindex da r with
        | some dfinal => some { nd with data := some dfinal }
        | none => none
  | _, _ => none

/-- A Temporal Quantum (`AudioQuantum`): a labeled time interval.  The
`container` back-reference to the directly containing `AudioQuantumList` is
modelled as an optional numeric identifier of that collection (the circular
Python reference cannot be a Lean subterm). -/
structure AQ where
  start : ℚ
  duration : ℚ
  kind : Option String
  confidence : Option ℚ
  container : Option ℕ := none
deriving DecidableEq

/-- `AudioQuantum.end`: `start + duration`. -/
def AQ.endTime (q : AQ) : ℚ := q.start + q.duration

/-- A Quantum Collection (`AudioQuantumList`): members plus a `kind` label and
a `container` back-reference to the owning `AudioAnalysis`, again modelled as
an optional numeric record identifier. -/
structure AQList where
  kind : Option String
  container : Option ℕ
  elems : List AQ
deriving DecidableEq

/-- Python `list.index(q)`: index of the first occurrence, `none` for the
`ValueError` when the element is absent.  (Python compares with `==`, which
for `AudioQuantum` objects is identity; structural equality plays that role
here — the collections in the statements below have structurally distinct
members.) -/
def pyListIndex {α : Type} [DecidableEq α] (q : α) : List α → Option ℕ
  | [] => none
  | x :: xs => if x = q then some 0 else (pyListIndex q xs).map (· + 1)

/-- `AudioQuantum.prev(step)`: looks `self` up in the containing collection
(passed here explicitly, dereferencing the `container` pointer), moves back
`max(loc - step, 0)` — natural subtraction is exactly that clamp — and
returns the element there; any lookup failure returns `self`. -/
def prevE (q : AQ) (group : List AQ) (step : ℕ) : AQ :=
  match pyListIndex q group with
  | some loc => (group.get? (loc - step)).getD q
  | none => q

/-- `AudioQuantum.next(step)`: moves forward to `min(loc + step, len(group))`;
indexing at `len(group)` raises `IndexError`, which the bare `except` turns
into returning `self` — so overshooting past the end yields `q` itself. -/
def nextE (q : AQ) (group : List AQ) (step : ℕ) : AQ :=
  match pyListIndex q group with
  | some loc => (group.get? (min (loc + step) group.length)).getD q
  | none => q

/-- `AudioQuantumList.that(filt)`: a fresh collection of the same kind (and
with no container back-reference — the constructor default) holding the
members that pass the filter, in order. -/
def thatE (c : AQList) (p : AQ → Bool) : AQList :=
  { kind := c.kind, container := none, elems := c.elems.filter p }

/-- A heterogeneous element of the kind `chain_from_mixed` consumes: either a
single (non-iterable) value or an ordered sequence of such elements. -/
inductive Mixed (α : Type) where
  | elem (a : α)
  | seq (xs : List (Mixed α))

/-- `chain_from_mixed(iterables)`: each iterable element has its immediate
members yielded in order (no recursion into them); a non-iterable element is
yielded as-is. -/
def chain_from_mixed {α : Type} : List (Mixed α) → List (Mixed α)
  | [] => []
  | Mixed.seq xs :: rest => xs ++ chain_from_mixed rest
  | Mixed.elem a :: rest => Mixed.elem a :: chain_from_mixed rest

/-- Collects the quanta yielded by `chain_from_mixed` back out of the
`Mixed` wrapping (the `out.extend(...)` step of `beget`). -/
def unwrapQuanta : List (Mixed AQ) → List AQ :=
  List.filterMap (fun m => match m with
    | Mixed.elem a => some a
    | Mixed.seq _ => none)

/-- The error raised by `beget`'s cross-collection mode when the companion
`which` argument is missing (a `TypeError` in the source; the spec's
taxonomy calls it `MissingArgument`). -/
inductive BegetError where
  | missingArgument
deriving DecidableEq

/-- `AudioQuantumList.beget(source, which)` in its cross-collection mode
(`source` is an `AudioQuantumList`): without `which` it raises immediately;
with `which` it builds `[source.that(which(x)) for x in self]` and extends a
fresh kindless collection with the one-level flattening of those collections
through `chain_from_mixed`. -/
def begetCross (l source : AQList) (which : Option (AQ → AQ → Bool)) :
    Except BegetError AQList :=
  match which with
  | none => Except.error BegetError.missingArgument
  | some w =>
      Except.ok
        { kind := none, container := none,
          elems := unwrapQuanta (chain_from_mixed
            ((l.elems.map (fun x => thatE source (w x))).map
              (fun c => Mixed.seq (c.elems.map Mixed.elem)))) }

/-- `AudioQuantumList.attach(container)`: sets the collection's container to
the owning record and each member's container to the collection itself;
`containerId` is the record's identity, `selfId` the collection's. -/
def attachE (l : AQList) (containerId selfId : ℕ) : AQList :=
  { l with container := some containerId,
           elems := l.elems.map (fun q => { q with container := some selfId }) }

/-- `AudioAnalysis.CACHED_VARIABLES`. -/
def CACHED_VARIABLES : List String :=
  ["bars", "beats", "duration", "end_of_fade_in", "key", "loudness",
   "metadata", "mode", "sections", "segments", "start_of_fade_out",
   "tatums", "tempo", "time_signature"]

/-- A parsed field value stored on the record: scalars (possibly paired with
a confidence), integers, metadata mappings, or a Quantum Collection. -/
inductive FieldValue where
  | scalar (x : ℚ)
  | scalarPair (x c : ℚ)
  | intval (n : ℤ)
  | intPair (n : ℤ) (c : ℚ)
  | meta (entries : List (String × String))
  | qlist (l : AQList)
deriving DecidableEq

/-- The Cached Analysis Record (`AudioAnalysis`): the track id, the record
object's identity `rid` (target of the collections' back-references), and
the lazily populated cached variables (`none` = not yet fetched). -/
structure AudioAnalysisE where
  id : String
  rid : ℕ
  fields : String → Option FieldValue

/-- Identity assigned to the collection stored under a given field name:
each field holds at most one collection object, so the field's position in
`CACHED_VARIABLES` identifies it. -/
def fieldId (name : String) : ℕ :=
  (pyListIndex name CACHED_VARIABLES).getD 0

/-- The attach step of a fetch: an `AudioQuantumList` value gets its
back-references set before it is read out; any other value is stored as-is. -/
def storeValue (raw : FieldValue) (rid cid : ℕ) : FieldValue :=
  match raw with
  | FieldValue.qlist l => FieldValue.qlist (attachE l rid cid)
  | v => v

/-- The fetch branch of `AudioAnalysis.__getattribute__` for one cached
variable: on a cache miss the collaborator's response, already parsed
(`raw`), is stored, and a stored `AudioQuantumList` is attached to the
record; a cache hit (or a non-cached name) leaves the record unchanged. -/
def fetchField (a : AudioAnalysisE) (name : String) (raw : FieldValue) :
    AudioAnalysisE :=
  if name ∈ CACHED_VARIABLES then
    match a.fields name with
    | some _ => a
    | none =>
        { a with fields := fun n =>
            if n = name then some (storeValue raw a.rid (fieldId name))
            else a.fields n }
  else a

/-- `self.__dict__.update(state)`: a field present in the persisted state
replaces the record's value, a field absent from it keeps the old value. -/
def mergedFields (a : AudioAnalysisE) (state : String → Option FieldValue) :
    String → Option FieldValue := fun n =>
  match state n with
  | some v => some v
  | none => a.fields n

/-- `AudioAnalysis.__setstate__`: the persisted `state` is merged over the
record's fields (`__dict__.update`), then every cached variable currently
holding an `AudioQuantumList` is re-attached. -/
def setstateE (a : AudioAnalysisE) (state : String → Option FieldValue) :
    AudioAnalysisE :=
  { a with fields := fun n =>
      if n ∈ CACHED_VARIABLES then
        match mergedFields a state n with
        | some (FieldValue.qlist l) =>
            some (FieldValue.qlist (attachE l a.rid (fieldId n)))
        | v => v
      else mergedFields a state n }

/-- The back-references of one collection are fully established: its
container is the record and every member's container is the collection. -/
def collAttached (rid cid : ℕ) (l : AQList) : Prop :=
  l.container = some rid ∧ ∀ q ∈ l.elems, q.container = some cid

/-- Attachment invariant of a record: every populated Quantum Collection
field carries complete back-references. -/
def recordAttached (a : AudioAnalysisE) : Prop :=
  ∀ name ∈ CACHED_VARIABLES, ∀ l,
    a.fields name = some (FieldValue.qlist l) →
      collAttached a.rid (fieldId name) l

/-- Stated from the claim's words (C2), for comparison with the code: the
rows an interval index is claimed to select — the half-open range from
`floor(start * rate)` of length `floor(duration * rate)`. -/
def intervalRowsClaim (b : AudioDataE) (s d : ℚ) : Option (List SampleRow) :=
  match b.data, b.sampleRate with
  | some dat, some rate =>
      some (pySlice dat (Int.floor (s * rate))
        (Int.floor (s * rate) + Int.floor (d * rate)))
  | _, _ => none

/-- Stated from the claim's words (C3): a copy of `long` with every sample
scaled by `lw`, plus `short`'s populated samples scaled by `sw` added into
the prefix of length `short`'s populated length (int16 arithmetic, i.e.
truncation toward zero at each write, as in the code). -/
def mixFormulaSpec (long short : AudioDataE) (lw sw : ℚ) : Option AudioDataE :=
  match long.data, short.data with
  | some dl, some ds =>
      let k := short.endindex
      let scaled := dl.map (scaleRowTrunc lw)
      some { data := some (List.zipWith (rowAddScaled sw) (scaled.take k)
                     (ds.take k) ++ scaled.drop k),
             sampleRate := none, numChannels := none, endindex := dl.length }
  | _, _ => none

/-- Stated from the claim's words (C3): `(long, short) = (a, b)` when `a`'s
populated length is AT LEAST `b`'s (ties make `a` the long operand), with
`long_weight = ratio` when `long` is `a`. -/
def mixClaim (a b : AudioDataE) (r : ℚ) : Option AudioDataE :=
  if b.endindex ≤ a.endindex then mixFormulaSpec a b r (1 - r)
  else mixFormulaSpec b a (1 - r) r

/-- The amended mixing statement: as `mixClaim`, but the comparison is the
code's strict one — at equal populated lengths `b` is the long operand. -/
def mixAmendedSpec (a b : AudioDataE) (r : ℚ) : Option AudioDataE :=
  if b.endindex < a.endindex then mixFormulaSpec a b r (1 - r)
  else mixFormulaSpec b a (1 - r) r

/-- Stated from the claim's words (C9): the rows `a + b` is claimed to hold —
`a`'s populated samples (first `endindex` rows) followed by `b`'s. -/
def addRowsClaim (a b : AudioDataE) : Option (List SampleRow) :=
  match a.data, b.data with
  | some da, some db => some (da.take a.endindex ++ db.take b.endindex)
  | _, _ => none


/-! ## Concrete instances used in counterexamples and witnesses -/

/-- Three distinct beats forming a small collection. -/
def beat0 : AQ := { start := 0, duration := 1, kind := some "beat", confidence := none }

/-- Second member of the small collection. -/
def beat1 : AQ := { start := 1, duration := 1, kind := some "beat", confidence := none }

/-- Third member of the small collection. -/
def beat2 : AQ := { start := 2, duration := 1, kind := some "beat", confidence := none }

/-- The small three-member collection. -/
def beats3 : List AQ := [beat0, beat1, beat2]

/-- A six-row mono buffer at 10 Hz with distinguishable samples. -/
def bufC2 : AudioDataE :=
  { data := some [[0], [1], [2], [3], [4], [5]], sampleRate := some 10,
    numChannels := some 1, endindex := 6 }

/-- One-row mono buffer holding the sample -3 (populated length 1). -/
def bufC3a : AudioDataE :=
  { data := some [[-3]], sampleRate := some 1, numChannels := some 1, endindex := 1 }

/-- One-row mono buffer holding the sample 1 (populated length 1). -/
def bufC3b : AudioDataE :=
  { data := some [[1]], sampleRate := some 1, numChannels := some 1, endindex := 1 }

/-- Mono buffer at 10 Hz, for the sample-rate-mismatch scenario. -/
def bufC8a : AudioDataE :=
  { data := some [[10]], sampleRate := some 10, numChannels := some 1, endindex := 1 }

/-- Mono buffer at 20 Hz, same channel count as `bufC8a`. -/
def bufC8b : AudioDataE :=
  { data := some [[20]], sampleRate := some 20, numChannels := some 1, endindex := 1 }

/-- Two-row buffer whose populated length is only 1 (one row of slack). -/
def bufC9a : AudioDataE :=
  { data := some [[1], [0]], sampleRate := some 1, numChannels := some 1, endindex := 1 }

/-- Fully populated one-row buffer. -/
def bufC9b : AudioDataE :=
  { data := some [[2]], sampleRate := some 1, numChannels := some 1, endindex := 1 }

/-- The C1 source buffer shape: 100 sample rows of 4 channels at 10 Hz,
fully populated. -/
def srcBuf (d : List SampleRow) : AudioDataE :=
  { data := some d, sampleRate := some 10, numChannels := some 4, endindex := 100 }

/-- Concrete 100×4 sample matrix with pairwise distinct rows. -/
def dW : List SampleRow :=
  (List.range 100).map (fun i => List.replicate 4 (Int.ofNat i))

/-- A fresh record with no populated fields. -/
def recW : AudioAnalysisE := { id := "trackW", rid := 0, fields := fun _ => none }

/-- A raw collection value as returned by the beats parser (unattached). -/
def rawW : FieldValue :=
  FieldValue.qlist { kind := some "beat", container := none, elems := [beat0, beat1] }

/-- A persisted state populating the `bars` field with an unattached
collection (persisted state never carries back-references). -/
def stateW : String → Option FieldValue := fun n =>
  if n = "bars" then
    some (FieldValue.qlist { kind := some "bar", container := none, elems := [beat2] })
  else none

/-! ## Helper lemmas -/

theorem setSlice_of_fits (dst : List SampleRow) (i : ℕ) (src : List SampleRow)
    (h : i + src.length ≤ dst.length) :
    setSlice dst i src = some (dst.take i ++ src ++ dst.drop (i + src.length)) := by
  unfold setSlice
  rw [if_pos h]

theorem zerosLike_length (nd : List SampleRow) :
    (zerosLike nd).length = nd.length := by
  simp [zerosLike]

theorem initData_eq (nd : List SampleRow) : initData nd = nd := by
  unfold initData
  rw [setSlice_of_fits _ _ _ (by simp [zerosLike_length])]
  simp [zerosLike_length]

theorem mkFromNdarray_eq (nd : List SampleRow) (rate : Option ℚ) (nch : Option ℕ) :
    mkFromNdarray nd rate nch =
      { data := some nd, sampleRate := rate, numChannels := nch,
        endindex := nd.length } := by
  unfold mkFromNdarray
  rw [initData_eq]

theorem pyInt_eq_floor {q : ℚ} (h : 0 ≤ q) : pyInt q = Int.floor q := by
  unfold pyInt
  rw [Int.tdiv_eq_ediv (Rat.num_nonneg.mpr h) (Int.ofNat_nonneg q.den)]
  exact Rat.floor_def.symm

theorem pyInt_neg (q : ℚ) : pyInt (-q) = -pyInt q := by
  unfold pyInt
  rw [Rat.num_neg_eq_neg_num, Rat.den_neg_eq_den, Int.neg_tdiv]

theorem chain_from_mixed_append {α : Type} (xs ys : List (Mixed α)) :
    chain_from_mixed (xs ++ ys) =
      chain_from_mixed xs ++ chain_from_mixed ys := by
  induction xs with
  | nil => rfl
  | cons x rest ih =>
      cases x with
      | elem a => simp [chain_from_mixed, ih]
      | seq zs => simp [chain_from_mixed, ih]

theorem unwrapQuanta_elems (c : List AQ) :
    unwrapQuanta (c.map Mixed.elem) = c := by
  induction c with
  | nil => rfl
  | cons q rest ih => simp [unwrapQuanta] at ih ⊢; exact ih

theorem unwrapQuanta_append (xs ys : List (Mixed AQ)) :
    unwrapQuanta (xs ++ ys) = unwrapQuanta xs ++ unwrapQuanta ys :=
  List.filterMap_append _ _ _

theorem unwrap_chain_of_seqs {β : Type} (f : β → List AQ) (bs : List β) :
    unwrapQuanta (chain_from_mixed
      (bs.map (fun b => Mixed.seq ((f b).map Mixed.elem)))) =
      (bs.map f).flatten := by
  induction bs with
  | nil => rfl
  | cons b rest ih =>
      simp only [List.map_cons, chain_from_mixed, List.flatten_cons]
      rw [unwrapQuanta_append, unwrapQuanta_elems, ih]

/-! ## Claim theorems -/

/-- C10: the shared flattening primitive `chain_from_mixed` flattens exactly
one level — an iterable element has its immediate members emitted in order
with no further recursion (a sequence nested two levels deep is emitted as a
sequence, not inlined), and a non-iterable element is emitted as-is. -/
theorem c10_chain_one_level {α : Type} (ys xs : List (Mixed α)) (a : α) :
    chain_from_mixed (Mixed.seq xs :: ys) = xs ++ chain_from_mixed ys ∧
    chain_from_mixed (Mixed.elem a :: ys) = Mixed.elem a :: chain_from_mixed ys ∧
    chain_from_mixed [Mixed.seq [Mixed.seq xs]] = [Mixed.seq xs] := by
  refine ⟨rfl, rfl, ?_⟩
  simp [chain_from_mixed]

/-- C6: `that(p)` is a new collection of the same kind holding exactly the
members satisfying `p` in their original relative order (an order-preserving
subselection, no longer than the original), and it carries no container
back-reference. -/
theorem c6_that_filter (c : AQList) (p : AQ → Bool) :
    (thatE c p).kind = c.kind ∧
    (thatE c p).container = none ∧
    (thatE c p).elems = c.elems.filter p ∧
    (thatE c p).elems.Sublist c.elems ∧
    (∀ q, q ∈ (thatE c p).elems ↔ q ∈ c.elems ∧ p q = true) ∧
    (thatE c p).elems.length ≤ c.elems.length := by
  refine ⟨rfl, rfl, rfl, List.filter_sublist _, ?_, List.length_filter_le _ _⟩
  intro q
  simp [thatE, List.mem_filter]

/-- C7: `beget` with another collection as `source` and no `which` argument
fails with the missing-argument error and yields no partial result; with
`which` supplied, the result is the in-order concatenation of
`source.that(which(x))` over the members `x` of `self`. -/
theorem c7_beget_cross (l source : AQList) (w : AQ → AQ → Bool) :
    begetCross l source none = Except.error BegetError.missingArgument ∧
    begetCross l source (some w) =
      Except.ok
        { kind := none, container := none,
          elems := (l.elems.map (fun x => (thatE source (w x)).elems)).flatten } := by
  constructor
  · rfl
  · simp only [begetCross, List.map_map]
    rw [show (fun c => Mixed.seq (AQList.elems c |>.map Mixed.elem)) ∘
          (fun x => thatE source (w x)) =
        (fun b => Mixed.seq (((fun x => (thatE source (w x)).elems) b).map
          Mixed.elem)) from rfl]
    rw [unwrap_chain_of_seqs (fun x => (thatE source (w x)).elems) l.elems]


theorem pyListIndex_get {α : Type} [DecidableEq α] (q : α) (l : List α) (loc : ℕ)
    (h : pyListIndex q l = some loc) : l.get? loc = some q := by
  induction l generalizing loc with
  | nil => simp [pyListIndex] at h
  | cons x xs ih =>
      rw [pyListIndex] at h
      by_cases hx : x = q
      · rw [if_pos hx] at h
        cases h
        simp [hx]
      · rw [if_neg hx] at h
        rcases Option.map_eq_some'.mp h with ⟨m, hm, hml⟩
        cases hml
        simpa using ih m hm

/-- C4 (amended): `prev` clamps to the start of the collection — it returns
the member at index `max(loc - step, 0)`, in particular the first member when
the step overshoots and `q` itself at index 0 — while `next` returns the
member at `loc + step` only when that index is in bounds, and otherwise
returns `q` itself (not the last member); neither ever errors and both
always return a member of the collection. -/
theorem c4_step_amended (q : AQ) (group : List AQ) (loc step : ℕ)
    (h : pyListIndex q group = some loc) (_hstep : 1 ≤ step) :
    prevE q group step ∈ group ∧
    nextE q group step ∈ group ∧
    group.get? (loc - step) = some (prevE q group step) ∧
    (loc + step < group.length →
      group.get? (loc + step) = some (nextE q group step)) ∧
    (group.length ≤ loc + step → nextE q group step = q) ∧
    (loc = 0 → prevE q group step = q) ∧
    (loc ≤ step → group.get? 0 = some (prevE q group step)) := by
  have hq : group.get? loc = some q := pyListIndex_get q group loc h
  have hlt : loc < group.length := by
    by_contra hcon
    rw [List.get?_eq_none.mpr (Nat.le_of_not_lt hcon)] at hq
    exact Option.noConfusion hq
  have hprevEq : prevE q group step = (group.get? (loc - step)).getD q := by
    simp only [prevE, h]
  have hnextEq : nextE q group step =
      (group.get? (min (loc + step) group.length)).getD q := by
    simp only [nextE, h]
  have hple : loc - step < group.length := lt_of_le_of_lt (Nat.sub_le loc step) hlt
  obtain ⟨y, hy⟩ := Option.ne_none_iff_exists'.mp
    (by rw [Ne, List.get?_eq_none]; exact Nat.not_le_of_lt hple :
      group.get? (loc - step) ≠ none)
  have hprev : prevE q group step = y := by rw [hprevEq, hy]; rfl
  refine ⟨?_, ?_, ?_, ?_, ?_, ?_, ?_⟩
  · rw [hprev]; exact List.get?_mem hy
  · rcases Nat.lt_or_ge (loc + step) group.length with hc | hc
    · rw [hnextEq, min_eq_left (Nat.le_of_lt hc)]
      obtain ⟨z, hz⟩ := Option.ne_none_iff_exists'.mp
        (by rw [Ne, List.get?_eq_none]; exact Nat.not_le_of_lt hc :
          group.get? (loc + step) ≠ none)
      rw [hz]
      exact List.get?_mem hz
    · rw [hnextEq, min_eq_right hc, List.get?_eq_none.mpr (Nat.le_refl _)]
      exact List.get?_mem hq
  · rw [hprev, hy]
  · intro hc
    rw [hnextEq, min_eq_left (Nat.le_of_lt hc)]
    obtain ⟨z, hz⟩ := Option.ne_none_iff_exists'.mp
      (by rw [Ne, List.get?_eq_none]; exact Nat.not_le_of_lt hc :
        group.get? (loc + step) ≠ none)
    rw [hz]
    rfl
  · intro hc
    rw [hnextEq, min_eq_right hc, List.get?_eq_none.mpr (Nat.le_refl _)]
    rfl
  · intro h0
    rw [h0] at hy hq
    rw [Nat.zero_sub] at hy
    rw [hq] at hy
    rw [hprev]
    exact (Option.some.inj hy).symm
  · intro hc
    rw [Nat.sub_eq_zero_of_le hc] at hy
    rw [hprev, hy]

/-- C4 (counterexample): in the three-member collection `beats3`, `next` from
index 0 with a step that overshoots the end returns the starting quantum
itself, not the last member as the claim states. -/
theorem c4_next_counterexample :
    nextE beat0 beats3 5 = beat0 ∧ beats3.getLast? = some beat2 ∧ beat0 ≠ beat2 := by
  decide

/-- C4 (witness): the amended stepping theorem applied to `beats3` with `q`
at index 1 and step 1. -/
theorem c4_step_witness :
    prevE beat1 beats3 1 ∈ beats3 ∧ nextE beat1 beats3 1 ∈ beats3 :=
  ⟨(c4_step_amended beat1 beats3 1 1 (by decide) (by decide)).1,
   (c4_step_amended beat1 beats3 1 1 (by decide) (by decide)).2.1⟩

theorem pyInt_eq (q : ℚ) :
    pyInt q = if q < 0 then -Int.floor (-q) else Int.floor q := by
  by_cases h : q < 0
  · rw [if_pos h]
    have h2 : pyInt q = -pyInt (-q) := by rw [pyInt_neg, neg_neg]
    rw [h2, pyInt_eq_floor (by linarith : (0:ℚ) ≤ -q)]
  · rw [if_neg h, pyInt_eq_floor (le_of_not_lt h)]

theorem pySlice_nonneg (dat : List SampleRow) (i j : ℤ) (hi : 0 ≤ i) (hj : 0 ≤ j) :
    pySlice dat i j = (dat.take j.toNat).drop i.toNat := by
  unfold pySlice clampIdx
  rw [if_neg (not_lt.mpr hi), if_neg (not_lt.mpr hj)]
  have htake : dat.take (min j.toNat dat.length) = dat.take j.toNat := by
    rcases Nat.le_total j.toNat dat.length with hle | hle
    · rw [min_eq_left hle]
    · rw [min_eq_right hle, List.take_length, List.take_of_length_le hle]
  rw [htake]
  rcases Nat.le_total i.toNat dat.length with hle | hle
  · rw [min_eq_left hle]
  · rw [min_eq_right hle]
    have hlen : (dat.take j.toNat).length ≤ dat.length := by
      rw [List.length_take]; exact min_le_right _ _
    rw [List.drop_eq_nil_of_le hlen, List.drop_eq_nil_of_le (le_trans hlen hle)]

theorem addScaledFront_of_fits (dst src : List SampleRow) (k : ℕ) (w : ℚ)
    (hk : k ≤ dst.length) (hsrc : src.length = k) :
    addScaledFront dst k src w =
      some (List.zipWith (rowAddScaled w) (dst.take k) src ++ dst.drop k) := by
  have hmin : min k dst.length = k := min_eq_left hk
  simp [addScaledFront, hmin, hsrc]

/-- C9 (counterexample): `+` concatenates the operands' full allocated
storage; with a left operand whose populated length is 1 but whose storage
holds 2 rows, the slack row appears in the result, contradicting the claim
that only the populated prefixes are concatenated. -/
theorem c9_add_counterexample :
    (addAD bufC9a bufC9b).bind AudioDataE.data = some [[1], [0], [2]] ∧
    addRowsClaim bufC9a bufC9b = some [[1], [2]] ∧
    (some [[1], [0], [2]] : Option (List SampleRow)) ≠ some [[1], [2]] := by
  decide

/-- C9 (amended): `a + b` is a new buffer whose rows are the concatenation of
`a`'s FULL allocated storage followed by `b`'s (slack past the write cursor
included), with the result's write cursor covering everything; an operand is
"empty" exactly when it has no storage at all (`data is None`), in which case
the result copies the other operand's full storage; two dataless operands
crash. -/
theorem c9_add_amended (a b : AudioDataE) :
    (∀ da db, a.data = some da → b.data = some db →
      addAD a b =
        some { data := some (da ++ db), sampleRate := none,
               numChannels := none, endindex := da.length + db.length }) ∧
    (∀ db, a.data = none → b.data = some db →
      addAD a b =
        some { data := some db, sampleRate := none,
               numChannels := none, endindex := db.length }) ∧
    (∀ da, a.data = some da → b.data = none →
      addAD a b =
        some { data := some da, sampleRate := none,
               numChannels := none, endindex := da.length }) ∧
    (a.data = none → b.data = none → addAD a b = none) := by
  refine ⟨?_, ?_, ?_, ?_⟩
  · intro da db hda hdb
    simp only [addAD, hda, hdb, mkFromNdarray_eq, List.length_append]
  · intro db hda hdb
    simp only [addAD, hda, hdb, mkFromNdarray_eq]
  · intro da hda hdb
    simp only [addAD, hda, hdb, mkFromNdarray_eq]
  · intro hda hdb
    simp only [addAD, hda, hdb]

/-- C9 (witness): the amended concatenation theorem at two concrete buffers. -/
theorem c9_add_witness :
    addAD bufC9a bufC9b =
      some { data := some [[1], [0], [2]], sampleRate := none,
             numChannels := none, endindex := 3 } := by
  have h := (c9_add_amended bufC9a bufC9b).1 [[1], [0]] [[2]] rfl rfl
  simpa using h

/-- C2 (counterexample): on a six-row buffer at 10 Hz, the interval
(start 1/4 s, duration 1/4 s) selects rows `[int(2.5), int(5.0)) = [2, 5)`
(three rows), while the claim's half-open range
`[floor(2.5), floor(2.5) + floor(2.5)) = [2, 4)` has only two rows. -/
theorem c2_interval_counterexample :
    getitemE bufC2 (PyIndex.quantum (1/4) (1/4)) =
      some (GetResult.buf
        { data := some [[2], [3], [4]], sampleRate := some 10,
          numChannels := none, endindex := 3 }) ∧
    intervalRowsClaim bufC2 (1/4) (1/4) = some [[2], [3]] ∧
    ([[2], [3], [4]] : List SampleRow) ≠ [[2], [3]] := by
  refine ⟨?_, ?_, by decide⟩
  · norm_num [getitemE, getsliceE, bufC2, mkFromNdarray_eq, pyInt_eq, pySlice,
      clampIdx]
    decide
  · have h : Int.floor ((1/4 : ℚ) * 10) = 2 := by norm_num
    simp only [intervalRowsClaim, bufC2, h]
    decide

/-- C2 (amended): indexing a buffer with an interval-like value returns a new
buffer at the same sample rate holding a copy of the half-open row range
from `floor(start * rate)` to `floor((start + duration) * rate)` — the end
bound is the floor of the scaled END TIME, not
`floor(start * rate) + floor(duration * rate)` as the claim put it — and
indexing with a nonnegative float time offset `t` fetches the single row at
index `floor(t * rate)`. -/
theorem c2_indexing_amended (b : AudioDataE) (dat : List SampleRow)
    (rate s d t : ℚ) (hd : b.data = some dat) (hr : b.sampleRate = some rate)
    (hrate : 0 ≤ rate) (hs : 0 ≤ s) (hdur : 0 ≤ d) (ht : 0 ≤ t) :
    getitemE b (PyIndex.quantum s d) =
      some (GetResult.buf
        { data := some ((dat.take (Int.floor ((s + d) * rate)).toNat).drop
            (Int.floor (s * rate)).toNat),
          sampleRate := some rate, numChannels := none,
          endindex := ((dat.take (Int.floor ((s + d) * rate)).toNat).drop
            (Int.floor (s * rate)).toNat).length }) ∧
    getitemE b (PyIndex.floatIdx t) =
      (dat.get? (Int.floor (t * rate)).toNat).map GetResult.row := by
  constructor
  · simp only [getitemE, getsliceE, hd, hr]
    rw [pyInt_eq_floor (mul_nonneg hs hrate),
        pyInt_eq_floor (mul_nonneg (add_nonneg hs hdur) hrate)]
    rw [pySlice_nonneg dat _ _ (Int.floor_nonneg.mpr (mul_nonneg hs hrate))
        (Int.floor_nonneg.mpr (mul_nonneg (add_nonneg hs hdur) hrate))]
    rw [mkFromNdarray_eq]
    rfl
  · simp only [getitemE, hd, hr, pyGetRow]
    rw [pyInt_eq_floor (mul_nonneg ht hrate)]
    rw [if_neg (not_lt.mpr (Int.floor_nonneg.mpr (mul_nonneg ht hrate)))]

/-- C2 (witness): the amended indexing theorem at a concrete buffer —
interval (1/2 s, 1/5 s) at 10 Hz yields the single row at index 5 (the end
bound 7 is clipped by the storage), and the time offset 3/10 s fetches
row 3. -/
theorem c2_indexing_witness :
    getitemE bufC2 (PyIndex.quantum (1/2) (1/5)) =
      some (GetResult.buf
        { data := some [[5]], sampleRate := some 10,
          numChannels := none, endindex := 1 }) ∧
    getitemE bufC2 (PyIndex.floatIdx (3/10)) = some (GetResult.row [3]) := by
  have h := c2_indexing_amended bufC2 [[0], [1], [2], [3], [4], [5]] 10
    (1/2) (1/5) (3/10) rfl rfl (by norm_num) (by norm_num) (by norm_num)
    (by norm_num)
  have h7 : Int.floor (((1/2 : ℚ) + 1/5) * 10) = 7 := by norm_num
  have h5 : Int.floor ((1/2 : ℚ) * 10) = 5 := by norm_num
  have h3 : Int.floor ((3/10 : ℚ) * 10) = 3 := by norm_num
  constructor
  · rw [h.1, h7, h5]
    decide
  · rw [h.2, h3]
    decide

/-- C3 (counterexample): at equal populated lengths the code makes `b` the
long operand (strict comparison), not `a` as the claim's "at least" reading
requires; with `a = [[-3]]`, `b = [[1]]`, ratio 1/2 — equal channel counts,
sample rates and populated lengths, ratio inside [0, 1] — the code yields
sample -1 where the claim's formula yields 0. -/
theorem c3_mix_counterexample :
    bufC3a.numChannels = bufC3b.numChannels ∧
    bufC3a.sampleRate = bufC3b.sampleRate ∧
    bufC3a.endindex = bufC3b.endindex ∧
    mixE bufC3a bufC3b (1/2) =
      some { data := some [[-1]], sampleRate := none, numChannels := none,
             endindex := 1 } ∧
    mixClaim bufC3a bufC3b (1/2) =
      some { data := some [[0]], sampleRate := none, numChannels := none,
             endindex := 1 } ∧
    mixE bufC3a bufC3b (1/2) ≠ mixClaim bufC3a bufC3b (1/2) := by
  have h1 : mixE bufC3a bufC3b (1/2) =
      some { data := some [[-1]], sampleRate := none, numChannels := none,
             endindex := 1 } := by
    norm_num [mixE, bufC3a, bufC3b, initData_eq, mkFromNdarray_eq,
      scaleRowTrunc, rowAddScaled, addScaledFront, pyInt_eq]
  have h2 : mixClaim bufC3a bufC3b (1/2) =
      some { data := some [[0]], sampleRate := none, numChannels := none,
             endindex := 1 } := by
    norm_num [mixClaim, mixFormulaSpec, bufC3a, bufC3b, scaleRowTrunc,
      rowAddScaled, pyInt_eq]
  refine ⟨rfl, rfl, rfl, h1, h2, ?_⟩
  rw [h1, h2]
  decide

/-- C3 (amended): for operands whose allocated storage equals their populated
length, `mix` realizes the claimed weighted-sum construction with the STRICT
comparison — `(long, short) = (a, b)` exactly when `a`'s populated length
exceeds `b`'s, ties making `b` the long operand — long fully scaled by its
weight, short's samples scaled by the complementary weight added into the
prefix of short's populated length. -/
theorem c3_mix_amended (a b : AudioDataE) (r : ℚ) (da db : List SampleRow)
    (ha : a.data = some da) (hb : b.data = some db)
    (hta : da.length = a.endindex) (htb : db.length = b.endindex) :
    mixE a b r = mixAmendedSpec a b r := by
  by_cases hcmp : b.endindex < a.endindex
  · have hk : b.endindex ≤ (da.map (scaleRowTrunc r)).length := by
      rw [List.length_map, hta]; exact le_of_lt hcmp
    have hEq := addScaledFront_of_fits (da.map (scaleRowTrunc r)) db
      b.endindex (1 - r) hk htb
    simp only [mixE, mixAmendedSpec, mixFormulaSpec, ha, hb, if_pos hcmp,
      initData_eq, mkFromNdarray_eq, hEq]
    rw [show db.take b.endindex = db from by rw [← htb]; exact List.take_length db]
  · have hab : a.endindex ≤ b.endindex := Nat.le_of_not_lt hcmp
    have hk : a.endindex ≤ (db.map (scaleRowTrunc (1 - r))).length := by
      rw [List.length_map, htb]; exact hab
    have hEq := addScaledFront_of_fits (db.map (scaleRowTrunc (1 - r))) da
      a.endindex r hk hta
    simp only [mixE, mixAmendedSpec, mixFormulaSpec, ha, hb, if_neg hcmp,
      initData_eq, mkFromNdarray_eq, hEq]
    rw [show da.take a.endindex = da from by rw [← hta]; exact List.take_length da]

/-- C3 (witness): the amended mixing theorem at the concrete tight buffers. -/
theorem c3_mix_witness :
    mixE bufC3a bufC3b (1/2) = mixAmendedSpec bufC3a bufC3b (1/2) :=
  c3_mix_amended bufC3a bufC3b (1/2) [[-3]] [[1]] rfl rfl rfl rfl

/-- C8 (counterexample): `mix` performs no compatibility check — on two
buffers with equal channel counts but different sample rates (10 Hz vs
20 Hz) it produces a mixed result instead of failing. -/
theorem c8_mix_no_check_counterexample :
    bufC8a.sampleRate ≠ bufC8b.sampleRate ∧
    bufC8a.numChannels = bufC8b.numChannels ∧
    mixE bufC8a bufC8b (1/2) =
      some { data := some [[15]], sampleRate := none, numChannels := none,
             endindex := 1 } := by
  refine ⟨by decide, rfl, ?_⟩
  norm_num [mixE, bufC8a, bufC8b, initData_eq, mkFromNdarray_eq,
    scaleRowTrunc, rowAddScaled, addScaledFront, pyInt_eq]

/-- C8 (amended): `mix` never consults the operands' sample rates or channel
count fields at all — its result is unchanged under arbitrary replacement of
both, so no `IncompatibleBuffers` failure exists; a channel mismatch can
surface only as a raw array-shape error in the arithmetic, never as a typed
compatibility error. -/
theorem c8_mix_oblivious (a b : AudioDataE) (r : ℚ) (ra rb : Option ℚ)
    (ca cb : Option ℕ) :
    mixE { a with sampleRate := ra, numChannels := ca }
      { b with sampleRate := rb, numChannels := cb } r = mixE a b r := rfl

theorem attachE_attached (l : AQList) (rid cid : ℕ) :
    collAttached rid cid (attachE l rid cid) := by
  constructor
  · rfl
  · intro q hq
    simp only [attachE, List.mem_map] at hq
    rcases hq with ⟨q0, _, rfl⟩
    rfl

theorem storeValue_attached (raw : FieldValue) (rid cid : ℕ) (l : AQList)
    (h : storeValue raw rid cid = FieldValue.qlist l) :
    collAttached rid cid l := by
  cases raw with
  | qlist l0 =>
      simp only [storeValue] at h
      cases h
      exact attachE_attached l0 rid cid
  | scalar x => simp [storeValue] at h
  | scalarPair x c => simp [storeValue] at h
  | intval n => simp [storeValue] at h
  | intPair n c => simp [storeValue] at h
  | meta entries => simp [storeValue] at h

theorem fetchField_rid (a : AudioAnalysisE) (name : String) (raw : FieldValue) :
    (fetchField a name raw).rid = a.rid := by
  rw [fetchField]
  by_cases hmem : name ∈ CACHED_VARIABLES
  · rw [if_pos hmem]
    cases a.fields name <;> rfl
  · rw [if_neg hmem]

/-- C5: whenever a Quantum Collection field of a Cached Analysis Record
becomes populated — by a first fetch through field access or by restoring
the record from persisted state — the collection's container is set to the
record and every member quantum's container is set to the collection, and
this attachment invariant holds of every populated collection field
afterwards. -/
theorem c5_attach_invariant (a : AudioAnalysisE) (name : String)
    (raw : FieldValue) (state : String → Option FieldValue)
    (h : recordAttached a) :
    recordAttached (fetchField a name raw) ∧
    recordAttached (setstateE a state) ∧
    (name ∈ CACHED_VARIABLES → a.fields name = none →
      ∀ l, raw = FieldValue.qlist l →
        (fetchField a name raw).fields name =
          some (FieldValue.qlist (attachE l a.rid (fieldId name)))) := by
  refine ⟨?_, ?_, ?_⟩
  · intro n hn l hl
    rw [fetchField_rid]
    by_cases hmem : name ∈ CACHED_VARIABLES
    · cases hcache : a.fields name with
      | some v =>
          have hfix : fetchField a name raw = a := by
            rw [fetchField, if_pos hmem, hcache]
          rw [hfix] at hl
          exact h n hn l hl
      | none =>
          have hF : fetchField a name raw =
              { a with fields := fun m =>
                  if m = name then some (storeValue raw a.rid (fieldId name))
                  else a.fields m } := by
            rw [fetchField, if_pos hmem, hcache]
          rw [hF] at hl
          simp only at hl
          by_cases hnm : n = name
          · rw [if_pos hnm] at hl
            have hv : storeValue raw a.rid (fieldId name) = FieldValue.qlist l :=
              Option.some.inj hl
            subst hnm
            exact storeValue_attached raw a.rid (fieldId n) l hv
          · rw [if_neg hnm] at hl
            exact h n hn l hl
    · have hfix : fetchField a name raw = a := by rw [fetchField, if_neg hmem]
      rw [hfix] at hl
      exact h n hn l hl
  · intro n hn l hl
    simp only [setstateE, if_pos hn] at hl
    cases hm : mergedFields a state n with
    | none => rw [hm] at hl; exact absurd hl (by simp)
    | some v =>
        rw [hm] at hl
        cases v with
        | qlist l0 =>
            simp only at hl
            have : attachE l0 a.rid (fieldId n) = l := by
              have := Option.some.inj hl
              exact FieldValue.qlist.inj this
            rw [← this]
            exact attachE_attached l0 a.rid (fieldId n)
        | scalar x => simp at hl
        | scalarPair x c => simp at hl
        | intval n0 => simp at hl
        | intPair n0 c => simp at hl
        | meta entries => simp at hl
  · intro hmem hempty l hraw
    rw [fetchField, if_pos hmem, hempty]
    simp [hraw, storeValue]

/-- C5 (witness): the attachment theorem at a fresh record, a raw beats
collection and a persisted state populating `bars`. -/
theorem c5_attach_witness :
    recordAttached (fetchField recW "beats" rawW) ∧
    recordAttached (setstateE recW stateW) ∧
    ("beats" ∈ CACHED_VARIABLES → recW.fields "beats" = none →
      ∀ l, rawW = FieldValue.qlist l →
        (fetchField recW "beats" rawW).fields "beats" =
          some (FieldValue.qlist (attachE l recW.rid (fieldId "beats")))) :=
  c5_attach_invariant recW "beats" rawW stateW
    (by intro n hn l hl; exact absurd hl (by simp [recW]))

/-- C1: assembling the interval list [(start 0 s, duration 0.3 s),
(start 0.5 s, duration 0.2 s)] from a 4-channel, 100-sample buffer at 10 Hz
yields a buffer whose logical length (write cursor) is exactly 5, whose
first five rows are rows 0, 1, 2, 5, 6 of the source in that order, whose
allocated length exceeds the logical length exactly by the 100000-sample
safety margin, and whose storage past the write cursor is zero-filled
slack. -/
theorem c1_assembly (d : List SampleRow) (h100 : d.length = 100)
    (hw : ∀ r ∈ d, r.length = 4) :
    ∃ dd,
      getpieces (srcBuf d) [(0, 3/10), (1/2, 1/5)] =
        some { data := some dd, sampleRate := some 10, numChannels := some 4,
               endindex := 5 } ∧
      dd.length = 5 + 100000 ∧
      dd[0]? = d[0]? ∧ dd[1]? = d[1]? ∧ dd[2]? = d[2]? ∧
      dd[3]? = d[5]? ∧ dd[4]? = d[6]? ∧
      (∀ i, 5 ≤ i → i < 5 + 100000 → dd[i]? = some (List.replicate 4 0)) := by
  have hlen1 : (d.take 3).length = 3 := by
    simp [List.length_take, h100]
  have hlen2 : ((d.take 7).drop 5).length = 2 := by
    simp [List.length_drop, List.length_take, h100]
  have hzlen : (zerosRows 100005 4).length = 100005 := by
    rw [zerosRows, List.length_replicate]
  have p0 : pyInt ((0 : ℚ) * 10) = 0 := by
    rw [pyInt_eq_floor (by norm_num)]; norm_num
  have p03 : pyInt (((0 : ℚ) + 3/10) * 10) = 3 := by
    rw [pyInt_eq_floor (by norm_num)]; norm_num
  have p5 : pyInt ((1/2 : ℚ) * 10) = 5 := by
    rw [pyInt_eq_floor (by norm_num)]; norm_num
  have p7 : pyInt (((1/2 : ℚ) + 1/5) * 10) = 7 := by
    rw [pyInt_eq_floor (by norm_num)]; norm_num
  have pd1 : pyInt ((3/10 : ℚ) * 10) = 3 := by
    rw [pyInt_eq_floor (by norm_num)]; norm_num
  have pd2 : pyInt ((1/5 : ℚ) * 10) = 2 := by
    rw [pyInt_eq_floor (by norm_num)]; norm_num
  have hrw : rowWidth d = 4 := by
    cases d with
    | nil => simp at h100
    | cons r rest =>
        have hr : r.length = 4 := hw r (by simp)
        simpa [rowWidth] using hr
  have hBd : (srcBuf d).data = some d := rfl
  have hBr : (srcBuf d).sampleRate = some 10 := rfl
  have hget1 : getitemE (srcBuf d) (PyIndex.quantum 0 (3/10)) =
      some (GetResult.buf
        { data := some (d.take 3), sampleRate := some 10,
          numChannels := none, endindex := 3 }) := by
    simp only [getitemE, getsliceE, hBd, hBr]
    rw [p0, p03]
    rw [pySlice_nonneg d 0 3 (by norm_num) (by norm_num)]
    rw [mkFromNdarray_eq]
    simp [hlen1]
  have hget2 : getitemE (srcBuf d) (PyIndex.quantum (1/2) (1/5)) =
      some (GetResult.buf
        { data := some ((d.take 7).drop 5), sampleRate := some 10,
          numChannels := none, endindex := 2 }) := by
    simp only [getitemE, getsliceE, hBd, hBr]
    rw [p5, p7]
    rw [pySlice_nonneg d 5 7 (by norm_num) (by norm_num)]
    rw [mkFromNdarray_eq]
    simp [hlen2]
  have happ1 : appendE (mkFromShape 100005 4 10)
      { data := some (d.take 3), sampleRate := some 10, numChannels := none,
        endindex := 3 } =
      some { data := some (d.take 3 ++ (zerosRows 100005 4).drop 3),
             sampleRate := some 10, numChannels := some 4, endindex := 3 } := by
    simp only [appendE, mkFromShape]
    rw [setSlice_of_fits _ _ _ (by rw [hzlen, hlen1]; norm_num)]
    simp [hlen1]
  have hA1take : (d.take 3 ++ (zerosRows 100005 4).drop 3).take 3 = d.take 3 := by
    rw [List.take_append_of_le_length (le_of_eq hlen1.symm), List.take_take,
      min_self]
  have hA1drop : (d.take 3 ++ (zerosRows 100005 4).drop 3).drop 5 =
      (zerosRows 100005 4).drop 5 := by
    rw [show (5 : ℕ) = (d.take 3).length + 2 by rw [hlen1]]
    rw [List.drop_append, List.drop_drop, hlen1]
  have happ2 : appendE
      { data := some (d.take 3 ++ (zerosRows 100005 4).drop 3),
        sampleRate := some 10, numChannels := some 4, endindex := 3 }
      { data := some ((d.take 7).drop 5), sampleRate := some 10,
        numChannels := none, endindex := 2 } =
      some { data := some (d.take 3 ++ (d.take 7).drop 5 ++
               (zerosRows 100005 4).drop 5),
             sampleRate := some 10, numChannels := some 4, endindex := 5 } := by
    simp only [appendE]
    rw [setSlice_of_fits _ _ _ (by
      rw [hlen2, List.length_append, hlen1, List.length_drop, hzlen]
      norm_num)]
    rw [hlen2, hA1take]
    rw [show (3 : ℕ) + 2 = 5 from rfl, hA1drop]
  have hmain : getpieces (srcBuf d) [(0, 3/10), (1/2, 1/5)] =
      some { data := some (d.take 3 ++ (d.take 7).drop 5 ++
               (zerosRows 100005 4).drop 5),
             sampleRate := some 10, numChannels := some 4, endindex := 5 } := by
    simp only [getpieces, hBd, hBr]
    simp only [List.foldl_cons, List.foldl_nil]
    rw [pd1, pd2]
    rw [if_neg (by norm_num)]
    rw [hrw]
    rw [show ((0 + 3 + 2 + 100000 : ℤ)).toNat = 100005 from rfl]
    simp only [appendSegs, hget1, hget2, happ1, happ2]
  refine ⟨d.take 3 ++ (d.take 7).drop 5 ++ (zerosRows 100005 4).drop 5,
    hmain, ?_, ?_, ?_, ?_, ?_, ?_, ?_⟩
  · rw [List.length_append, List.length_append, hlen1, hlen2,
      List.length_drop, hzlen]
  · rw [List.getElem?_append_left (by rw [List.length_append, hlen1, hlen2]; norm_num),
      List.getElem?_append_left (by rw [hlen1]; norm_num),
      List.getElem?_take_of_lt (by norm_num)]
  · rw [List.getElem?_append_left (by rw [List.length_append, hlen1, hlen2]; norm_num),
      List.getElem?_append_left (by rw [hlen1]; norm_num),
      List.getElem?_take_of_lt (by norm_num)]
  · rw [List.getElem?_append_left (by rw [List.length_append, hlen1, hlen2]; norm_num),
      List.getElem?_append_left (by rw [hlen1]; norm_num),
      List.getElem?_take_of_lt (by norm_num)]
  · rw [List.getElem?_append_left (by rw [List.length_append, hlen1, hlen2]; norm_num),
      List.getElem?_append_right (by rw [hlen1])]
    rw [hlen1, List.getElem?_drop, List.getElem?_take_of_lt (by norm_num)]
  · rw [List.getElem?_append_left (by rw [List.length_append, hlen1, hlen2]; norm_num),
      List.getElem?_append_right (by rw [hlen1]; norm_num)]
    rw [hlen1, List.getElem?_drop, List.getElem?_take_of_lt (by norm_num)]
  · intro i h5 hub
    rw [List.getElem?_append_right (by rw [List.length_append, hlen1, hlen2]; omega)]
    rw [List.length_append, hlen1, hlen2, List.getElem?_drop]
    rw [show 5 + (i - (3 + 2)) = i by omega]
    rw [zerosRows]
    exact List.getElem?_replicate_of_lt (by omega)

/-- C1 (witness): the assembly theorem at a concrete 100-row 4-channel
matrix with pairwise distinct rows. -/
theorem c1_assembly_witness :
    ∃ dd,
      getpieces (srcBuf dW) [(0, 3/10), (1/2, 1/5)] =
        some { data := some dd, sampleRate := some 10, numChannels := some 4,
               endindex := 5 } ∧
      dd.length = 5 + 100000 ∧
      dd[0]? = dW[0]? ∧ dd[1]? = dW[1]? ∧ dd[2]? = dW[2]? ∧
      dd[3]? = dW[5]? ∧ dd[4]? = dW[6]? ∧
      (∀ i, 5 ≤ i → i < 5 + 100000 → dd[i]? = some (List.replicate 4 0)) :=
  c1_assembly dW (by rw [dW, List.length_map, List.length_range])
    (by
      intro r hr
      rw [dW] at hr
      rcases List.mem_map.mp hr with ⟨i, _, rfl⟩
      rw [List.length_replicate])
